import Mathlib

/-!
# Verification of the clash-rs routing core

Shallow embedding of two subsystems of the repository:

* `src/clash/src/common/trie.rs` — the reversed-label domain trie
  (`StringTrie` / `DomainTrie`) with its three wildcard classes;
* `src/clash_lib/src/app/proxy_manager/mod.rs` — the channel health
  registry (`ProxyManager`).

Rust `HashMap<K, V>` children maps become association lists with
insert-or-replace update (only keyed lookup is ever performed, so the
ordering of the list is irrelevant to every operation).  The shared
`Arc<NodeData>` payload handle becomes a value of a type parameter `α`:
`Arc::clone` hands out the identical handle, modelled by reusing the
identical value.  Mutation becomes explicit state passing.
-/

set_option autoImplicit false

namespace ClashRS

/-! ## Trie data model (`trie.rs` lines 10-44) -/

/-- `Node<T>` from `trie.rs`: a children map plus an optional payload.
The `HashMap<T, Node<T>>` is embedded as an association list with
insert-or-replace semantics; the payload type is the parameter `α`
(the `Arc<NodeData>` handle). -/
inductive Node (α : Type) : Type where
  | mk (children : List (String × Node α)) (data : Option α) : Node α

/-- Projection: the children association list. -/
def Node.children {α : Type} : Node α → List (String × Node α)
  | .mk c _ => c

/-- Projection: the optional payload attached to this node. -/
def Node.data {α : Type} : Node α → Option α
  | .mk _ d => d

/-- `Node::new()`: no children, no payload. -/
def Node.new {α : Type} : Node α := .mk [] none

/-- `Node::get_child`: keyed lookup in the children map. -/
def Node.get_child {α : Type} (n : Node α) (s : String) : Option (Node α) :=
  (n.children.find? (fun p => p.1 == s)).map Prod.snd

/-- `Node::has_child`. -/
def Node.has_child {α : Type} (n : Node α) (s : String) : Bool :=
  (n.get_child s).isSome

/-- Insert-or-replace on the children association list: the embedding of
`HashMap::insert` as used by `Node::add_child`. -/
def assocInsert {α : Type} : List (String × Node α) → String → Node α →
    List (String × Node α)
  | [], s, c => [(s, c)]
  | (k, v) :: rest, s, c =>
    if k == s then (s, c) :: rest else (k, v) :: assocInsert rest s c

/-- `Node::add_child`: store `child` under label `s`, replacing any
existing child with that label. -/
def Node.add_child {α : Type} (n : Node α) (s : String) (child : Node α) :
    Node α :=
  .mk (assocInsert n.children s child) n.data

/-- `StringTrie<T>` (here fixed to `String` labels as in `DomainTrie`). -/
structure StringTrie (α : Type) : Type where
  root : Node α

/-- `StringTrie::new()`. -/
def StringTrie.new {α : Type} : StringTrie α := ⟨Node.new⟩

/-! ## Pattern validation (`valid_and_splic_domain`, lines 136-156)

The Rust function returns `(Option<Vec<&str>>, bool)` where the bool and
the option are always in agreement; we collapse the pair to a single
`Option`.  Rust's `str::split('.')` is embedded character by character:
splitting the empty string yields `[""]`, a separator at either end
yields an empty part there, and adjacent separators yield empty parts
in between. -/

/-- `str::split('.')` on the character list of the domain. -/
def splitDot (cs : List Char) : List (List Char) :=
  match cs with
  | [] => [[]]
  | c :: rest =>
    let r := splitDot rest
    if c = '.' then [] :: r
    else (c :: r.headI) :: r.tail

/-- `domain.split(DOMAIN_STEP).collect::<Vec<&str>>()`. -/
def splitDomain (domain : String) : List String :=
  (splitDot domain.data).map (fun l => String.mk l)

/-- `domain.ends_with(".")`. -/
def endsWithDot (domain : String) : Bool :=
  domain.data.getLast? == some '.'

/-- `valid_and_splic_domain`: reject a non-empty domain ending in `"."`;
split on `"."`; a single-part split is valid iff the part is non-empty;
a multi-part split is valid iff no part after the first is empty. -/
def valid_and_splic_domain (domain : String) : Option (List String) :=
  if domain != "" && endsWithDot domain then none
  else
    let parts := splitDomain domain
    if parts.length == 1 then
      if parts.headI == "" then none else some parts
    else if (parts.drop 1).any (fun p => p == "") then none
    else some parts

/-! ## Insertion (`insert` / `insert_inner`, lines 52-70 and 92-105) -/

/-- The loop body of `insert_inner` walked functionally: `path` is the
label sequence in the order the Rust loop visits it (last label first,
i.e. `parts` reversed).  Missing children are created; the payload is
attached to the final node, overwriting any prior payload there. -/
def Node.insertPath {α : Type} (n : Node α) (path : List String) (data : α) :
    Node α :=
  match path with
  | [] => .mk n.children (some data)
  | p :: rest =>
    let child := (n.get_child p).getD Node.new
    n.add_child p (child.insertPath rest data)

/-- `StringTrie::insert_inner`: walk/create nodes from the last label to
the first (the Rust loop `for i in (0..parts.len()).rev()`), then attach
the payload. -/
def StringTrie.insert_inner {α : Type} (t : StringTrie α)
    (parts : List String) (data : α) : StringTrie α :=
  ⟨t.root.insertPath parts.reverse data⟩

/-- `StringTrie::insert`: validate/split; on the `+` first label insert
twice — once with the `+` label dropped, once with it replaced by the
dot-wildcard label `""` — both times with the same payload handle
(`data.clone()` on an `Arc` yields the identical handle).  Returns the
updated trie paired with the Rust return value. -/
def StringTrie.insert {α : Type} (t : StringTrie α) (domain : String)
    (data : α) : StringTrie α × Bool :=
  match valid_and_splic_domain domain with
  | none => (t, false)
  | some parts =>
    match parts with
    | p :: rest =>
      if p == "+" then
        let t1 := t.insert_inner rest data
        let t2 := t1.insert_inner ("" :: rest) data
        (t2, true)
      else
        (t.insert_inner (p :: rest) data, true)
    | [] => (t.insert_inner parts data, true)

/-! ## Search (`search` / `search_inner`, lines 72-90 and 107-133) -/

/-- The recursion of `StringTrie::search_inner`, phrased structurally on
the labels in the order the Rust code consumes them (last label first):
Rust peels `parts.last()` and recurses on `parts[0..len-1]`, which on the
reversed list is peeling the head and recursing on the tail.  With
labels left to match, try in order the exact child for the current
label, then the `"*"` child — each accepted only when the recursive
result carries a payload — and finally fall back to the dot-wildcard
child `""` with no further label comparison and no payload check (the
caller checks). -/
def searchRev {α : Type} (node : Node α) (rparts : List String) :
    Option (Node α) :=
  match rparts with
  | [] => some node
  | p :: rest =>
    let exactRes : Option (Node α) :=
      match node.get_child p with
      | some c =>
        match searchRev c rest with
        | some n => if n.data.isSome then some n else none
        | none => none
      | none => none
    match exactRes with
    | some n => some n
    | none =>
      let starRes : Option (Node α) :=
        match node.get_child "*" with
        | some c =>
          match searchRev c rest with
          | some n => if n.data.isSome then some n else none
          | none => none
        | none => none
      match starRes with
      | some n => some n
      | none => node.get_child ""

/-- `StringTrie::search_inner`: `parts.last()` of the Rust code is the
head of the reversed list and `parts[0..len-1]` its tail. -/
def StringTrie.search_inner {α : Type} (node : Node α)
    (parts : List String) : Option (Node α) :=
  searchRev node parts.reverse

/-- `StringTrie::search`: validate/split the query, reject a query whose
first label is empty, run `search_inner` from the root, and accept the
result only when it carries a payload. -/
def StringTrie.search {α : Type} (t : StringTrie α) (domain : String) :
    Option (Node α) :=
  match valid_and_splic_domain domain with
  | none => none
  | some parts =>
    if parts.headI == "" then none
    else
      match StringTrie.search_inner t.root parts with
      | some n => if n.data.isSome then some n else none
      | none => none

/-- Payload retrieved by a search: the `data` of the returned node.
Used to state the priority claims, which identify results by payload. -/
def StringTrie.searchData {α : Type} (t : StringTrie α) (domain : String) :
    Option α :=
  (t.search domain).bind Node.data

/-- Build a trie by inserting a list of `(pattern, payload)` pairs in
order, starting from a given trie (the test scenarios of `trie.rs`). -/
def StringTrie.insertAll {α : Type} (t : StringTrie α)
    (pats : List (String × α)) : StringTrie α :=
  pats.foldl (fun acc pd => (acc.insert pd.1 pd.2).1) t

/-- Follow exact-label children along a path from a node (reverse label
order, as stored by `insert_inner`); used to state where a pattern's
payload physically lives in the trie. -/
def Node.walkPath {α : Type} (n : Node α) : List String → Option (Node α)
  | [] => some n
  | p :: rest =>
    match n.get_child p with
    | some c => c.walkPath rest
    | none => none

/-- The payload stored at the end of an exact child path, if any. -/
def Node.dataAt {α : Type} (n : Node α) (path : List String) : Option α :=
  (n.walkPath path).bind Node.data

/-! ## Health registry (`proxy_manager/mod.rs` lines 27-48) -/

/-- `DelayHistory` from `mod.rs`: one probe record.  `SystemTime` is
embedded as an opaque `Nat` tick; the `u16` delays as `Nat` (the probe
values always fit in `u16`, and no arithmetic is performed on them). -/
structure DelayHistory : Type where
  time : Nat
  delay : Nat
  mean_delay : Nat
deriving DecidableEq

/-- `ProxyState` with its `#[derive(Default)]`: not alive, no history.
The `VecDeque` is embedded as a list, front (oldest) first. -/
structure ProxyState : Type where
  alive : Bool := false
  delay_history : List DelayHistory := []
deriving DecidableEq

/-- The `HashMap<String, ProxyState>` behind the mutex, embedded as a
lookup function (only keyed get / entry-or-default access occurs). -/
abbrev ProxyManager : Type := String → Option ProxyState

/-- `u16::MAX`, the "infinite delay" sentinel of `last_delay`. -/
def u16Max : Nat := 65535

/-- `ProxyManager::new`: empty state map. -/
def ProxyManager.new : ProxyManager := fun _ => none

/-- `ProxyManager::alive` (lines 80-87): the stored flag, or `false`
when the channel has no state. -/
def ProxyManager.alive (m : ProxyManager) (name : String) : Bool :=
  ((m name).map ProxyState.alive).getD false

/-- `ProxyManager::report_alive` (lines 89-93): entry-or-default, then
overwrite the `alive` flag.  History is untouched. -/
def ProxyManager.report_alive (m : ProxyManager) (name : String)
    (alive : Bool) : ProxyManager :=
  fun n =>
    if n = name then some { (m name).getD {} with alive := alive }
    else m n

/-- `ProxyManager::delay_history` (lines 95-103): snapshot of the
channel's history, oldest first; empty for an unknown channel. -/
def ProxyManager.delay_history (m : ProxyManager) (name : String) :
    List DelayHistory :=
  ((m name).map ProxyState.delay_history).getD []

/-- `ProxyManager::last_delay` (lines 104-114): the sentinel when not
alive, else the most recent record's delay, else the sentinel. -/
def ProxyManager.last_delay (m : ProxyManager) (name : String) : Nat :=
  if !(m.alive name) then u16Max
  else (((m.delay_history name).getLast?).map DelayHistory.delay).getD u16Max

/-- The `DelayHistory` record built at lines 166-170: measured values on
success, `0` for both on failure; timestamp is the current instant. -/
def DelayHistory.ofResult (result : Option (Nat × Nat)) (now : Nat) :
    DelayHistory :=
  { time := now
    delay := ((result.map Prod.fst).getD 0)
    mean_delay := ((result.map Prod.snd).getD 0) }

/-- `ProxyManager::url_test` (lines 115-180).  The network probe
(`tester`) is external input, embedded as its outcome `result`
(`some (delay, mean_delay)` for `Ok`, `none` for `Err`); `now` is the
timestamp taken for the record.  The function unconditionally reports
liveness, appends the record, evicts the front when the deque exceeds
10 entries, and hands the probe outcome back to the caller. -/
def ProxyManager.url_test (m : ProxyManager) (name : String)
    (result : Option (Nat × Nat)) (now : Nat) :
    ProxyManager × Option (Nat × Nat) :=
  let m1 := m.report_alive name result.isSome
  let ins := DelayHistory.ofResult result now
  let st := (m1 name).getD {}
  let hist := st.delay_history ++ [ins]
  let hist2 := if hist.length > 10 then hist.tail else hist
  (fun n =>
    if n = name then some { st with delay_history := hist2 }
    else m1 n,
   result)

/-- One registry mutation: either a `url_test` completion (with its
probe outcome and timestamp) or a manual `report_alive` override. -/
inductive RegistryOp : Type where
  | urlTest (name : String) (result : Option (Nat × Nat)) (now : Nat) :
      RegistryOp
  | reportAlive (name : String) (alive : Bool) : RegistryOp

/-- Apply one registry operation. -/
def ProxyManager.applyOp (m : ProxyManager) : RegistryOp → ProxyManager
  | .urlTest name result now => (m.url_test name result now).1
  | .reportAlive name alive => m.report_alive name alive

/-- Run a sequence of registry operations from a fresh registry. -/
def ProxyManager.run (ops : List RegistryOp) : ProxyManager :=
  ops.foldl ProxyManager.applyOp ProxyManager.new

/-- Successive successful `url_test` calls for one channel: each probe
is a measured `(delay, mean_delay)` pair with its timestamp. -/
def ProxyManager.runUrlTests (m : ProxyManager) (name : String)
    (probes : List ((Nat × Nat) × Nat)) : ProxyManager :=
  probes.foldl (fun acc p => (acc.url_test name (some p.1) p.2).1) m

/-! ## Helper lemmas: validation and search -/

/-- When `valid_and_splic_domain` accepts, the parts it returns are
exactly the split of the domain. -/
theorem valid_parts_eq (d : String) (parts : List String)
    (h : valid_and_splic_domain d = some parts) : parts = splitDomain d := by
  unfold valid_and_splic_domain at h
  by_cases h1 : (d != "" && endsWithDot d) = true
  · simp [h1] at h
  · rw [if_neg h1] at h
    by_cases h2 : ((splitDomain d).length == 1) = true
    · by_cases h3 : ((splitDomain d).headI == "") = true
      · simp [h2, h3] at h
      · simp only [h2, h3, if_true, if_false, Bool.false_eq_true] at h
        exact (Option.some.inj h).symm
    · by_cases h4 : (((splitDomain d).drop 1).any (fun p => p == "")) = true
      · simp only [h2, h4, if_true, if_false, Bool.false_eq_true] at h
        exact Option.noConfusion h
      · simp only [h2, h4, if_true, if_false, Bool.false_eq_true] at h
        exact (Option.some.inj h).symm

/-- A valid pattern always inserts: the `true` return covers every arm
of the `match` on the first label. -/
theorem insert_valid_true {α : Type} (t : StringTrie α) (d : String)
    (data : α) (parts : List String)
    (h : valid_and_splic_domain d = some parts) :
    (t.insert d data).2 = true := by
  unfold StringTrie.insert
  rw [h]
  cases parts with
  | nil => rfl
  | cons p rest =>
    by_cases hp : (p == "+") = true <;> simp [hp]

/-- A query whose first label is empty never matches: `search` returns
`None` whether validation rejects the string or the `parts[0] == ""`
guard fires. -/
theorem search_headI_empty {α : Type} (t : StringTrie α) (s : String)
    (h : (splitDomain s).headI = "") : t.search s = none := by
  unfold StringTrie.search
  cases hv : valid_and_splic_domain s with
  | none => rfl
  | some parts =>
    have hp : parts = splitDomain s := valid_parts_eq s parts hv
    subst hp
    simp [h]

/-! ## Helper lemmas: trie insertion paths -/

/-- `find?` over an insert-or-replace association list hits the freshly
inserted binding. -/
theorem find_assocInsert_same {α : Type} (l : List (String × Node α))
    (s : String) (c : Node α) :
    (assocInsert l s c).find? (fun p => p.1 == s) = some (s, c) := by
  induction l with
  | nil => simp [assocInsert]
  | cons kv rest ih =>
    obtain ⟨k, v⟩ := kv
    unfold assocInsert
    by_cases hk : (k == s) = true
    · simp [hk]
    · simp only [hk]
      simp only [Bool.false_eq_true, if_false, List.find?]
      simp only [hk]
      exact ih

/-- `add_child` stores the child retrievably under its label. -/
theorem get_child_add_child {α : Type} (n : Node α) (s : String)
    (c : Node α) : (n.add_child s c).get_child s = some c := by
  cases n with
  | mk ch d =>
    simp [Node.add_child, Node.get_child, Node.children,
      find_assocInsert_same]

/-- `add_child` never changes the payload of the node itself. -/
theorem data_add_child {α : Type} (n : Node α) (s : String) (c : Node α) :
    (n.add_child s c).data = n.data := by
  cases n with
  | mk ch d => rfl

/-- A fresh node carries no payload anywhere. -/
theorem dataAt_new {α : Type} (path : List String) :
    (Node.new (α := α)).dataAt path = none := by
  cases path with
  | nil => rfl
  | cons p rest => simp [Node.dataAt, Node.walkPath, Node.get_child,
      Node.new, Node.children]

/-- Inserting along a path attaches the payload at the end of exactly
that path. -/
theorem dataAt_insertPath_self {α : Type} (path : List String) :
    ∀ (n : Node α) (d : α), (n.insertPath path d).dataAt path = some d := by
  induction path with
  | nil =>
    intro n d
    cases n with
    | mk ch old => rfl
  | cons p rest ih =>
    intro n d
    show ((n.insertPath (p :: rest) d).walkPath (p :: rest)).bind
      Node.data = some d
    unfold Node.insertPath Node.walkPath
    rw [get_child_add_child]
    exact ih ((n.get_child p).getD Node.new) d

/-- Inserting along a strictly longer path never disturbs the payload
found at the end of a prefix of that path. -/
theorem dataAt_insertPath_extend {α : Type} (path : List String) :
    ∀ (n : Node α) (x : String) (ext : List String) (d : α),
      (n.insertPath (path ++ x :: ext) d).dataAt path = n.dataAt path := by
  induction path with
  | nil =>
    intro n x ext d
    show ((n.insertPath (x :: ext) d).walkPath []).bind Node.data =
      (n.walkPath []).bind Node.data
    unfold Node.insertPath Node.walkPath
    simp [data_add_child]
  | cons p rest ih =>
    intro n x ext d
    show ((n.insertPath (p :: (rest ++ x :: ext)) d).walkPath
      (p :: rest)).bind Node.data = (n.walkPath (p :: rest)).bind Node.data
    unfold Node.insertPath Node.walkPath
    rw [get_child_add_child]
    cases hc : n.get_child p with
    | some c =>
      show (c.insertPath (rest ++ x :: ext) d).dataAt rest = c.dataAt rest
      exact ih c x ext d
    | none =>
      show ((Node.new (α := α)).insertPath (rest ++ x :: ext) d).dataAt rest
        = none
      exact (ih (Node.new (α := α)) x ext d).trans (dataAt_new rest)

/-! ## Helper lemmas: health registry -/

/-- `report_alive` at the reported channel: entry-or-default with the
flag overwritten. -/
theorem report_alive_apply_same (m : ProxyManager) (name : String)
    (b : Bool) :
    m.report_alive name b name = some { (m name).getD {} with alive := b } := by
  simp [ProxyManager.report_alive]

/-- `report_alive` leaves every other channel's entry untouched. -/
theorem report_alive_apply_other (m : ProxyManager) (name other : String)
    (b : Bool) (h : other ≠ name) :
    m.report_alive name b other = m other := by
  simp [ProxyManager.report_alive, h]

/-- The entry-or-default state has the channel's history. -/
theorem delay_history_getD (m : ProxyManager) (name : String) :
    ((m name).getD {}).delay_history = m.delay_history name := by
  cases h : m name <;> simp [ProxyManager.delay_history, h]

/-- `url_test` returns the probe outcome unchanged. -/
theorem url_test_snd (m : ProxyManager) (name : String)
    (result : Option (Nat × Nat)) (now : Nat) :
    (m.url_test name result now).2 = result := rfl

/-- The state `url_test` leaves at the probed channel: liveness is the
probe verdict, and the history is the old history with the new record
appended, the front evicted when the deque would exceed 10. -/
theorem url_test_apply_same (m : ProxyManager) (name : String)
    (result : Option (Nat × Nat)) (now : Nat) :
    (m.url_test name result now).1 name =
      some { alive := result.isSome,
             delay_history :=
               if (m.delay_history name ++
                    [DelayHistory.ofResult result now]).length > 10
               then (m.delay_history name ++
                    [DelayHistory.ofResult result now]).tail
               else m.delay_history name ++
                    [DelayHistory.ofResult result now] } := by
  simp [ProxyManager.url_test, report_alive_apply_same, delay_history_getD]

/-- `url_test` leaves every other channel's entry untouched. -/
theorem url_test_apply_other (m : ProxyManager) (name other : String)
    (result : Option (Nat × Nat)) (now : Nat) (h : other ≠ name) :
    (m.url_test name result now).1 other = m other := by
  simp [ProxyManager.url_test, h, report_alive_apply_other m name other _ h]

/-- Liveness after `url_test` is exactly the probe verdict. -/
theorem url_test_alive (m : ProxyManager) (name : String)
    (result : Option (Nat × Nat)) (now : Nat) :
    ((m.url_test name result now).1).alive name = result.isSome := by
  simp [ProxyManager.alive, url_test_apply_same]

/-- History after `url_test`: append, then evict the front if over
capacity. -/
theorem url_test_delay_history (m : ProxyManager) (name : String)
    (result : Option (Nat × Nat)) (now : Nat) :
    ((m.url_test name result now).1).delay_history name =
      if (m.delay_history name ++
           [DelayHistory.ofResult result now]).length > 10
      then (m.delay_history name ++ [DelayHistory.ofResult result now]).tail
      else m.delay_history name ++ [DelayHistory.ofResult result now] := by
  simp [ProxyManager.delay_history, url_test_apply_same]

/-- Length arithmetic of one `url_test` step. -/
theorem url_test_history_length (m : ProxyManager) (name : String)
    (result : Option (Nat × Nat)) (now : Nat) :
    (((m.url_test name result now).1).delay_history name).length =
      if (m.delay_history name).length + 1 > 10
      then (m.delay_history name).length
      else (m.delay_history name).length + 1 := by
  rw [url_test_delay_history]
  by_cases h : (m.delay_history name).length + 1 > 10
  · rw [if_pos (by simp [List.length_append]; omega),
        if_pos h]
    simp [List.length_tail, List.length_append]
  · rw [if_neg (by simp [List.length_append]; omega),
        if_neg h]
    simp [List.length_append]

/-- The most recent record after `url_test` is the record of this very
probe, whether or not the front was evicted. -/
theorem url_test_history_getLast (m : ProxyManager) (name : String)
    (result : Option (Nat × Nat)) (now : Nat) :
    (((m.url_test name result now).1).delay_history name).getLast? =
      some (DelayHistory.ofResult result now) := by
  rw [url_test_delay_history]
  split_ifs with h1
  · cases hl : m.delay_history name with
    | nil => rw [hl] at h1; simp at h1
    | cons x xs =>
      show (xs ++ [DelayHistory.ofResult result now]).getLast? = _
      exact List.getLast?_concat xs
  · exact List.getLast?_concat _

/-- Liveness after `report_alive` is the reported flag. -/
theorem report_alive_alive (m : ProxyManager) (name : String) (b : Bool) :
    (m.report_alive name b).alive name = b := by
  simp [ProxyManager.alive, report_alive_apply_same]

/-- `report_alive` does not alter the channel's history. -/
theorem report_alive_history (m : ProxyManager) (name : String)
    (b : Bool) :
    (m.report_alive name b).delay_history name = m.delay_history name := by
  simp [ProxyManager.delay_history, report_alive_apply_same,
    delay_history_getD]

/-- One registry operation preserves the 10-record bound on every
channel. -/
theorem applyOp_history_le (m : ProxyManager)
    (hm : ∀ n, (m.delay_history n).length ≤ 10) (op : RegistryOp) :
    ∀ n, ((m.applyOp op).delay_history n).length ≤ 10 := by
  intro n
  cases op with
  | urlTest name result now =>
    by_cases hn : n = name
    · subst hn
      rw [ProxyManager.applyOp, url_test_history_length]
      have := hm n
      split_ifs <;> omega
    · rw [ProxyManager.applyOp]
      rw [show ((m.url_test name result now).1).delay_history n =
            m.delay_history n by
        simp [ProxyManager.delay_history,
          url_test_apply_other m name n result now hn]]
      exact hm n
  | reportAlive name b =>
    by_cases hn : n = name
    · subst hn
      rw [ProxyManager.applyOp, report_alive_history]
      exact hm n
    · rw [ProxyManager.applyOp]
      rw [show (m.report_alive name b).delay_history n =
            m.delay_history n by
        simp [ProxyManager.delay_history,
          report_alive_apply_other m name n b hn]]
      exact hm n

/-- The 10-record bound is an invariant of every operation sequence. -/
theorem run_history_le (ops : List RegistryOp) :
    ∀ n, ((ProxyManager.run ops).delay_history n).length ≤ 10 := by
  have key : ∀ (l : List RegistryOp) (m : ProxyManager),
      (∀ n, (m.delay_history n).length ≤ 10) →
      ∀ n, ((l.foldl ProxyManager.applyOp m).delay_history n).length ≤ 10 := by
    intro l
    induction l with
    | nil => intro m hm n; exact hm n
    | cons op rest ih =>
      intro m hm n
      exact ih (m.applyOp op) (applyOp_history_le m hm op) n
  exact key ops ProxyManager.new
    (by intro n; simp [ProxyManager.new, ProxyManager.delay_history])

/-- Running successive successful probes: the history length saturates
at 10, the channel is alive, and the newest record is that of the last
probe. -/
theorem runUrlTests_spec (probes : List ((Nat × Nat) × Nat)) :
    ∀ (m : ProxyManager) (name : String),
      (m.delay_history name).length ≤ 10 → probes ≠ [] →
      ((m.runUrlTests name probes).delay_history name).length
          = min ((m.delay_history name).length + probes.length) 10 ∧
      (m.runUrlTests name probes).alive name = true ∧
      ∀ p, probes.getLast? = some p →
        ((m.runUrlTests name probes).delay_history name).getLast?
          = some (DelayHistory.ofResult (some p.1) p.2) := by
  induction probes with
  | nil => intro m name _ hne; exact absurd rfl hne
  | cons p rest ih =>
    intro m name h _
    have hfold : m.runUrlTests name (p :: rest) =
        ((m.url_test name (some p.1) p.2).1).runUrlTests name rest := rfl
    cases rest with
    | nil =>
      rw [hfold]
      refine ⟨?_, url_test_alive m name (some p.1) p.2, ?_⟩
      · show (((m.url_test name (some p.1) p.2).1).delay_history
          name).length = _
        rw [url_test_history_length]
        simp only [List.length_cons, List.length_nil]
        split_ifs <;> omega
      · intro q hq
        have hpq : p = q := by simpa using hq
        subst hpq
        exact url_test_history_getLast m name (some p.1) p.2
    | cons q rest' =>
      have h1 : (((m.url_test name (some p.1) p.2).1).delay_history
          name).length ≤ 10 := by
        rw [url_test_history_length]; split_ifs <;> omega
      obtain ⟨hl, ha, hg⟩ :=
        ih ((m.url_test name (some p.1) p.2).1) name h1 (by simp)
      rw [hfold]
      refine ⟨?_, ha, ?_⟩
      · rw [hl, url_test_history_length]
        simp only [List.length_cons]
        split_ifs <;> omega
      · intro r hr
        rw [List.getLast?_cons_cons] at hr
        exact hg r hr

/-! ## Claim theorems -/

/-- The four priority-test patterns of the spec, with their payloads,
in the spec's insertion order. -/
def priorityPats : List (String × Nat) :=
  [(".dev", 0), ("example.dev", 1), ("*.example.dev", 2),
   ("test.example.dev", 3)]

/-- **C1** — Specificity priority of `DomainTrie::search`: for every
insertion order of the patterns `.dev` (payload 0), `example.dev` (1),
`*.example.dev` (2), `test.example.dev` (3) into an empty trie,
`search("test.dev")` and `search("foo.bar.dev")` find payload 0,
`search("example.dev")` payload 1, `search("foo.example.dev")` payload
2 and `search("test.example.dev")` payload 3: exact labels beat the
single-label wildcard, which beats the dot-wildcard, at every depth,
regardless of insertion order. -/
theorem c1_specificity_priority :
    ∀ pats ∈ List.permutations' priorityPats,
      (StringTrie.insertAll StringTrie.new pats).searchData "test.dev"
          = some 0 ∧
      (StringTrie.insertAll StringTrie.new pats).searchData "foo.bar.dev"
          = some 0 ∧
      (StringTrie.insertAll StringTrie.new pats).searchData "example.dev"
          = some 1 ∧
      (StringTrie.insertAll StringTrie.new pats).searchData "foo.example.dev"
          = some 2 ∧
      (StringTrie.insertAll StringTrie.new pats).searchData
          "test.example.dev" = some 3 := by
  decide

/-- Witness for C1 at the spec's own insertion order. -/
theorem c1_specificity_priority_witness :
    priorityPats ∈ List.permutations' priorityPats ∧
    ((StringTrie.insertAll StringTrie.new priorityPats).searchData "test.dev"
        = some 0 ∧
     (StringTrie.insertAll StringTrie.new priorityPats).searchData
        "foo.bar.dev" = some 0 ∧
     (StringTrie.insertAll StringTrie.new priorityPats).searchData
        "example.dev" = some 1 ∧
     (StringTrie.insertAll StringTrie.new priorityPats).searchData
        "foo.example.dev" = some 2 ∧
     (StringTrie.insertAll StringTrie.new priorityPats).searchData
        "test.example.dev" = some 3) :=
  ⟨by decide, c1_specificity_priority priorityPats (by decide)⟩

/-- The eight wildcard-class patterns of the spec, in order. -/
def wildcardPats : List (String × Nat) :=
  [("*.example.com", 0), ("sub.*.example.com", 1), ("*.dev", 2),
   (".org", 3), (".example.net", 4), (".apple.*", 5),
   ("+.foo.com", 6), ("+.stun.*.*", 7)]

/-- **C2** — Wildcard-class matching: after inserting the eight
patterns, the seven listed hostnames match a payload-bearing node and
the three listed hostnames return `None`. -/
theorem c2_wildcard_classes :
    ((StringTrie.insertAll StringTrie.new wildcardPats).searchData
        "sub.example.com").isSome = true ∧
    ((StringTrie.insertAll StringTrie.new wildcardPats).searchData
        "sub.foo.example.com").isSome = true ∧
    ((StringTrie.insertAll StringTrie.new wildcardPats).searchData
        "test.org").isSome = true ∧
    ((StringTrie.insertAll StringTrie.new wildcardPats).searchData
        "test.example.net").isSome = true ∧
    ((StringTrie.insertAll StringTrie.new wildcardPats).searchData
        "test.apple.com").isSome = true ∧
    ((StringTrie.insertAll StringTrie.new wildcardPats).searchData
        "foo.com").isSome = true ∧
    ((StringTrie.insertAll StringTrie.new wildcardPats).searchData
        "global.stun.website.com").isSome = true ∧
    (StringTrie.insertAll StringTrie.new wildcardPats).search
        "foo.sub.example.com" = none ∧
    (StringTrie.insertAll StringTrie.new wildcardPats).search
        "foo.example.dev" = none ∧
    (StringTrie.insertAll StringTrie.new wildcardPats).search
        "example.com" = none := by
  refine ⟨by decide, by decide, by decide, by decide, by decide, by decide,
    by decide, ?_, ?_, ?_⟩ <;>
    exact Option.isNone_iff_eq_none.mp (by decide)

/-- **C3** — Insert validation and atomicity: a pattern that is empty,
ends with a dot, or contains an empty interior label is rejected:
`insert` returns `false` and the trie is returned unchanged (hence every
search behaves identically before and after). -/
theorem c3_insert_validation {α : Type} (t : StringTrie α)
    (domain : String) (data : α)
    (h : domain = "" ∨ endsWithDot domain = true ∨
      "" ∈ (splitDomain domain).drop 1) :
    t.insert domain data = (t, false) := by
  have hv : valid_and_splic_domain domain = none := by
    rcases h with rfl | h2 | h3
    · decide
    · have hne : domain ≠ "" := by
        intro hd; subst hd; simp [endsWithDot] at h2
      unfold valid_and_splic_domain
      rw [if_pos (by simp [h2, bne_iff_ne, hne])]
    · have hlen : 2 ≤ (splitDomain domain).length := by
        have hnil : (splitDomain domain).drop 1 ≠ [] :=
          List.ne_nil_of_mem h3
        by_contra hcon
        push_neg at hcon
        exact hnil (List.drop_eq_nil_iff.mpr (by omega))
      have hany : (((splitDomain domain).drop 1).any
          (fun p => p == "")) = true :=
        List.any_eq_true.mpr ⟨"", h3, by simp⟩
      unfold valid_and_splic_domain
      by_cases hc : (domain != "" && endsWithDot domain) = true
      · rw [if_pos hc]
      · rw [if_neg hc]
        have hne1 : ((splitDomain domain).length == 1) = false := by
          simp only [beq_eq_false_iff_ne, ne_eq]
          omega
        simp only [hne1, hany, if_true, if_false, Bool.false_eq_true]
  unfold StringTrie.insert
  rw [hv]

/-- Witness for C3 at the spec's example `"..dev"`. -/
theorem c3_insert_validation_witness :
    (("..dev" : String) = "" ∨ endsWithDot "..dev" = true ∨
      "" ∈ (splitDomain "..dev").drop 1) ∧
    (StringTrie.new (α := Nat)).insert "..dev" 0 = (StringTrie.new, false) :=
  ⟨by decide,
   c3_insert_validation (StringTrie.new (α := Nat)) "..dev" 0 (by decide)⟩

/-- **C4** — Bounded delay history: every sequence of `url_test` and
`report_alive` operations keeps every channel's history at 10 records
or fewer; at capacity the front (oldest) record is the one evicted; and
11 successive successful probes leave length exactly 10, the channel
alive, with `last_delay` the most recent probe's delay. -/
theorem c4_bounded_delay_history :
    (∀ (ops : List RegistryOp) (name : String),
        ((ProxyManager.run ops).delay_history name).length ≤ 10) ∧
    (∀ (m : ProxyManager) (name : String) (result : Option (Nat × Nat))
        (now : Nat),
        (m.delay_history name).length = 10 →
        ((m.url_test name result now).1).delay_history name =
          (m.delay_history name).tail ++
            [DelayHistory.ofResult result now]) ∧
    (∀ (ops : List RegistryOp) (name : String)
        (probes : List ((Nat × Nat) × Nat)) (p : (Nat × Nat) × Nat),
        probes.length = 11 → probes.getLast? = some p →
        (((ProxyManager.run ops).runUrlTests name probes).delay_history
            name).length = 10 ∧
        ((ProxyManager.run ops).runUrlTests name probes).alive name
            = true ∧
        ((ProxyManager.run ops).runUrlTests name probes).last_delay name
            = p.1.1) := by
  refine ⟨fun ops name => run_history_le ops name, ?_, ?_⟩
  · intro m name result now h10
    rw [url_test_delay_history]
    rw [if_pos (by simp [List.length_append]; omega)]
    cases hl : m.delay_history name with
    | nil => rw [hl] at h10; simp at h10
    | cons x xs => rfl
  · intro ops name probes p h11 hlast
    have hle := run_history_le ops name
    have hne : probes ≠ [] := by
      intro hcon; subst hcon; simp at h11
    obtain ⟨hl, ha, hg⟩ :=
      runUrlTests_spec probes (ProxyManager.run ops) name hle hne
    have hlen : (((ProxyManager.run ops).runUrlTests name
        probes).delay_history name).length = 10 := by
      rw [hl, h11]; omega
    refine ⟨hlen, ha, ?_⟩
    have hrec := hg p hlast
    simp [ProxyManager.last_delay, ha, hrec, DelayHistory.ofResult]

/-- Witness for C4: 11 identical successful probes from a fresh
registry, and the eviction equation at a 10-record history. -/
theorem c4_bounded_delay_history_witness :
    ((List.replicate 11 (((5, 6), 7) : (Nat × Nat) × Nat)).length = 11) ∧
    ((List.replicate 11 (((5, 6), 7) : (Nat × Nat) × Nat)).getLast?
        = some ((5, 6), 7)) ∧
    (((ProxyManager.new.runUrlTests "a"
        (List.replicate 10 ((5, 6), 7))).delay_history "a").length = 10) ∧
    (((ProxyManager.new.runUrlTests "a"
          (List.replicate 10 ((5, 6), 7))).url_test "a" (some (5, 6))
          7).1.delay_history "a" =
      ((ProxyManager.new.runUrlTests "a"
          (List.replicate 10 ((5, 6), 7))).delay_history "a").tail ++
        [DelayHistory.ofResult (some (5, 6)) 7]) ∧
    ((((ProxyManager.run []).runUrlTests "a"
        (List.replicate 11 ((5, 6), 7))).delay_history "a").length = 10) ∧
    (((ProxyManager.run []).runUrlTests "a"
        (List.replicate 11 ((5, 6), 7))).alive "a" = true) ∧
    (((ProxyManager.run []).runUrlTests "a"
        (List.replicate 11 ((5, 6), 7))).last_delay "a" = 5) :=
  ⟨by decide, by decide, by decide,
   c4_bounded_delay_history.2.1
     (ProxyManager.new.runUrlTests "a" (List.replicate 10 ((5, 6), 7)))
     "a" (some (5, 6)) 7 (by decide),
   (c4_bounded_delay_history.2.2 [] "a"
     (List.replicate 11 ((5, 6), 7)) ((5, 6), 7) (by decide) (by decide)).1,
   (c4_bounded_delay_history.2.2 [] "a"
     (List.replicate 11 ((5, 6), 7)) ((5, 6), 7) (by decide) (by decide)).2.1,
   (c4_bounded_delay_history.2.2 [] "a"
     (List.replicate 11 ((5, 6), 7)) ((5, 6), 7) (by decide)
     (by decide)).2.2⟩

/-- **C5** — Unconditional state update by `url_test`: for every probe
outcome it hands the outcome back unchanged, sets the channel's alive
flag to the probe verdict, and appends exactly one record — the
measured values on success, zeros on failure — evicting the front when
the deque would exceed 10. -/
theorem c5_url_test_unconditional (m : ProxyManager) (name : String)
    (result : Option (Nat × Nat)) (now : Nat) :
    (m.url_test name result now).2 = result ∧
    ((m.url_test name result now).1).alive name = result.isSome ∧
    ((m.url_test name result now).1).delay_history name =
      (if (m.delay_history name ++
            [DelayHistory.ofResult result now]).length > 10
       then (m.delay_history name ++
            [DelayHistory.ofResult result now]).tail
       else m.delay_history name ++ [DelayHistory.ofResult result now]) ∧
    (∀ d md, result = some (d, md) →
      DelayHistory.ofResult result now = ⟨now, d, md⟩) ∧
    (result = none → DelayHistory.ofResult result now = ⟨now, 0, 0⟩) := by
  refine ⟨url_test_snd m name result now, url_test_alive m name result now,
    url_test_delay_history m name result now, ?_, ?_⟩
  · intro d md h; subst h; rfl
  · intro h; subst h; rfl

/-- Witness for C5: one successful and one failed probe. -/
theorem c5_url_test_unconditional_witness :
    ((ProxyManager.new.url_test "a" (some (5, 6)) 3).2 = some (5, 6)) ∧
    (((ProxyManager.new.url_test "a" (some (5, 6)) 3).1).alive "a"
        = (some ((5 : Nat), (6 : Nat))).isSome) ∧
    (DelayHistory.ofResult (some (5, 6)) 3 = ⟨3, 5, 6⟩) ∧
    (DelayHistory.ofResult (none : Option (Nat × Nat)) 4 = ⟨4, 0, 0⟩) ∧
    (((ProxyManager.new.url_test "a" none 4).1).alive "a"
        = (none : Option (Nat × Nat)).isSome) :=
  ⟨(c5_url_test_unconditional ProxyManager.new "a" (some (5, 6)) 3).1,
   (c5_url_test_unconditional ProxyManager.new "a" (some (5, 6)) 3).2.1,
   (c5_url_test_unconditional ProxyManager.new "a" (some (5, 6))
     3).2.2.2.1 5 6 rfl,
   (c5_url_test_unconditional ProxyManager.new "a" none 4).2.2.2.2 rfl,
   (c5_url_test_unconditional ProxyManager.new "a" none 4).2.1⟩

/-- **C6** — Read-API sentinel semantics: `alive` is `false` for an
unknown channel; `last_delay` is the `u16::MAX` sentinel when the
channel is not alive or when it is alive with empty history, and is the
most recent record's delay otherwise. -/
theorem c6_read_api_sentinels (m : ProxyManager) (name : String) :
    (m name = none → m.alive name = false) ∧
    (m.alive name = false → m.last_delay name = u16Max) ∧
    (m.alive name = true → m.delay_history name = [] →
      m.last_delay name = u16Max) ∧
    (∀ r, m.alive name = true →
      (m.delay_history name).getLast? = some r →
      m.last_delay name = r.delay) := by
  refine ⟨?_, ?_, ?_, ?_⟩
  · intro h; simp [ProxyManager.alive, h]
  · intro h; simp [ProxyManager.last_delay, h]
  · intro h1 h2; simp [ProxyManager.last_delay, h1, h2]
  · intro r h1 h2; simp [ProxyManager.last_delay, h1, h2]

/-- Witness for C6: an unknown channel, an alive channel with empty
history, and an alive channel whose newest record is known. -/
theorem c6_read_api_sentinels_witness :
    (ProxyManager.new.alive "x" = false) ∧
    (ProxyManager.new.last_delay "x" = u16Max) ∧
    ((ProxyManager.new.report_alive "b" true).last_delay "b" = u16Max) ∧
    (((ProxyManager.new.url_test "a" (some (5, 6)) 3).1).last_delay "a"
        = (⟨3, 5, 6⟩ : DelayHistory).delay) :=
  ⟨(c6_read_api_sentinels ProxyManager.new "x").1 rfl,
   (c6_read_api_sentinels ProxyManager.new "x").2.1 rfl,
   (c6_read_api_sentinels (ProxyManager.new.report_alive "b" true)
     "b").2.2.1 (by decide) (by decide),
   (c6_read_api_sentinels ((ProxyManager.new.url_test "a" (some (5, 6))
     3).1) "a").2.2.2 ⟨3, 5, 6⟩ (by decide) (by decide)⟩

/-- **C7** — Dual expansion of the `+` wildcard: a valid pattern whose
first label is `+` inserts successfully and produces exactly the trie
of the two inner insertions — the `+` label dropped, and the `+` label
replaced by the dot-wildcard `""` — and both terminal nodes carry the
identical payload handle. -/
theorem c7_plus_wildcard_dual_insert {α : Type} (t : StringTrie α)
    (domain : String) (data : α) (parts : List String)
    (hv : valid_and_splic_domain domain = some parts)
    (hp : parts.head? = some "+") :
    t.insert domain data =
      ((t.insert_inner parts.tail data).insert_inner
        ("" :: parts.tail) data, true) ∧
    ((t.insert domain data).1.root).dataAt parts.tail.reverse
      = some data ∧
    ((t.insert domain data).1.root).dataAt (parts.tail.reverse ++ [""])
      = some data := by
  cases parts with
  | nil => cases hp
  | cons p0 tl =>
    have hp0 : p0 = "+" := by simpa using hp
    subst hp0
    have hins : t.insert domain data =
        ((t.insert_inner tl data).insert_inner ("" :: tl) data, true) := by
      unfold StringTrie.insert
      rw [hv]
      simp
    refine ⟨hins, ?_, ?_⟩
    · rw [hins]
      show (((t.insert_inner tl data).insert_inner ("" :: tl)
        data).root).dataAt tl.reverse = some data
      unfold StringTrie.insert_inner
      rw [List.reverse_cons]
      rw [dataAt_insertPath_extend tl.reverse
        (t.root.insertPath tl.reverse data) "" [] data]
      exact dataAt_insertPath_self tl.reverse t.root data
    · rw [hins]
      show (((t.insert_inner tl data).insert_inner ("" :: tl)
        data).root).dataAt (tl.reverse ++ [""]) = some data
      unfold StringTrie.insert_inner
      rw [List.reverse_cons]
      exact dataAt_insertPath_self (tl.reverse ++ [""])
        (t.root.insertPath tl.reverse data) data

/-- Witness for C7 at the spec's pattern `+.foo.com`. -/
theorem c7_plus_wildcard_dual_insert_witness :
    (valid_and_splic_domain "+.foo.com" = some ["+", "foo", "com"]) ∧
    ((["+", "foo", "com"] : List String).head? = some "+") ∧
    ((StringTrie.new (α := Nat)).insert "+.foo.com" 0 =
      ((StringTrie.new.insert_inner (["+", "foo", "com"] :
          List String).tail 0).insert_inner
        ("" :: (["+", "foo", "com"] : List String).tail) 0, true)) ∧
    ((((StringTrie.new (α := Nat)).insert "+.foo.com" 0).1.root).dataAt
        (["+", "foo", "com"] : List String).tail.reverse = some 0) ∧
    ((((StringTrie.new (α := Nat)).insert "+.foo.com" 0).1.root).dataAt
        ((["+", "foo", "com"] : List String).tail.reverse ++ [""])
      = some 0) :=
  ⟨by decide, by decide,
   (c7_plus_wildcard_dual_insert (StringTrie.new (α := Nat)) "+.foo.com" 0
     ["+", "foo", "com"] (by decide) (by decide)).1,
   (c7_plus_wildcard_dual_insert (StringTrie.new (α := Nat)) "+.foo.com" 0
     ["+", "foo", "com"] (by decide) (by decide)).2.1,
   (c7_plus_wildcard_dual_insert (StringTrie.new (α := Nat)) "+.foo.com" 0
     ["+", "foo", "com"] (by decide) (by decide)).2.2⟩

/-- **C8** (counterexample) — The claim "insert(\"\", payload) succeeds
and returns true" is false: on the empty trie, `insert("")` returns
`false` (the validator rejects the lone empty label, as `trie.rs`'s own
`test_basic` asserts at line 184). -/
theorem c8_empty_pattern_counterexample :
    ¬ ((StringTrie.new (α := Nat)).insert "" 0).2 = true := by decide

/-- **C8** (amended) — The empty string is rejected by validation:
`insert("", payload)` returns `false` and leaves the trie unchanged,
and `search("")` returns `None`. -/
theorem c8_empty_pattern_amended {α : Type} (t : StringTrie α) (data : α) :
    t.insert "" data = (t, false) ∧ t.search "" = none := by
  have hv : valid_and_splic_domain "" = none := by decide
  constructor
  · unfold StringTrie.insert
    rw [hv]
  · unfold StringTrie.search
    rw [hv]

/-- **C10** — Leading-dot queries never match: a query whose first
label is empty is rejected by `search` for every trie; yet such a
string can pass pattern validation, in which case inserting it
succeeds while a search for the very same string still returns `None`.
-/
theorem c10_leading_dot_queries {α : Type} (t : StringTrie α) (s : String)
    (h : (splitDomain s).headI = "") :
    t.search s = none ∧
    ∀ (data : α), (valid_and_splic_domain s).isSome = true →
      ((t.insert s data).2 = true ∧
       ((t.insert s data).1).search s = none) := by
  refine ⟨search_headI_empty t s h, ?_⟩
  intro data hvs
  obtain ⟨parts, hv⟩ := Option.isSome_iff_exists.mp hvs
  exact ⟨insert_valid_true t s data parts hv,
    search_headI_empty (t.insert s data).1 s h⟩

/-- Witness for C10 at the dot-wildcard pattern `.org`. -/
theorem c10_leading_dot_queries_witness :
    ((splitDomain ".org").headI = "") ∧
    ((valid_and_splic_domain ".org").isSome = true) ∧
    ((StringTrie.new (α := Nat)).search ".org" = none) ∧
    (((StringTrie.new (α := Nat)).insert ".org" 0).2 = true) ∧
    ((((StringTrie.new (α := Nat)).insert ".org" 0).1).search ".org"
        = none) :=
  ⟨by decide, by decide,
   (c10_leading_dot_queries (StringTrie.new (α := Nat)) ".org"
     (by decide)).1,
   ((c10_leading_dot_queries (StringTrie.new (α := Nat)) ".org"
     (by decide)).2 0 (by decide)).1,
   ((c10_leading_dot_queries (StringTrie.new (α := Nat)) ".org"
     (by decide)).2 0 (by decide)).2⟩

/-- **C9** — Frame property of `report_alive`: reporting a channel dead
immediately makes `alive` false, leaves that channel's history
untouched, and leaves every other channel's state untouched. -/
theorem c9_report_alive_frame (m : ProxyManager) (name : String) :
    (m.report_alive name false).alive name = false ∧
    (m.report_alive name false).delay_history name
      = m.delay_history name ∧
    ∀ other, other ≠ name → m.report_alive name false other = m other :=
  ⟨report_alive_alive m name false, report_alive_history m name false,
   fun other h => report_alive_apply_other m name other false h⟩

/-- Witness for C9 with channels `"a"` and `"b"`. -/
theorem c9_report_alive_frame_witness :
    (("b" : String) ≠ "a") ∧
    ((ProxyManager.new.report_alive "a" false).alive "a" = false) ∧
    ((ProxyManager.new.report_alive "a" false).delay_history "a"
        = ProxyManager.new.delay_history "a") ∧
    ((ProxyManager.new.report_alive "a" false) "b"
        = ProxyManager.new "b") :=
  ⟨by decide,
   (c9_report_alive_frame ProxyManager.new "a").1,
   (c9_report_alive_frame ProxyManager.new "a").2.1,
   (c9_report_alive_frame ProxyManager.new "a").2.2 "b" (by decide)⟩

end ClashRS
